import Mathlib

/-!
# ecs-cli `local up` (ecs-cli/modules/cli/local/up_app.go)

A shallow embedding of the `local up` command and the properties of its four
steps: compose loader, secret scanner, secret resolver and compose launcher.

Go strings are byte strings.  They are represented by `List Char`, one `Char`
per byte; the only bytes the program inspects are the ASCII bytes of the secret
label prefix and of the separator ".".
-/

namespace EcsLocal

/-- A Go string. -/
abbrev GoString := List Char

/-- A Go slice value.  `none` is the nil slice (what `var s []T` declares), and
`some l` is a non-nil slice holding the elements `l`. -/
abbrev Slice (α : Type) := Option (List α)

/-- The elements of a slice, as visited by `range`; the nil slice has none. -/
def Slice.elems {α : Type} : Slice α → List α
  | none => []
  | some l => l

/-- Go's `append(s, x)`: the result is never nil. -/
def goAppend {α : Type} (s : Slice α) (x : α) : Slice α :=
  some (s.elems ++ [x])

/-- Go's indexing `a[i]` with a signed index: `none` is the run-time panic
"index out of range". -/
def goIndex {α : Type} (a : List α) (i : Int) : Option α :=
  if 0 ≤ i then a.get? i.toNat else none

/-- The function `strings.HasPrefix(s, prefix)`:
`len(s) >= len(prefix) && s[0:len(prefix)] == prefix`. -/
def HasPrefix (s pre : GoString) : Bool :=
  decide (pre.length ≤ s.length) && (s.take pre.length == pre)

/-- The function `strings.Split(s, sep)` for a separator of one byte (the program calls it
with "."): the substrings of `s` between the occurrences of `sep`, in order.
A string without the separator gives the one-element list `[s]`. -/
def Split : GoString → Char → List GoString
  | [], _ => [[]]
  | c :: cs, sep =>
    if c = sep then [] :: Split cs sep
    else
      match Split cs sep with
      | [] => [[c]]
      | h :: t => (c :: h) :: t

/-- Modelled from the spec: the record type `secrets.ContainerSecret` of the
package `secrets`, which is not part of the sources at hand.  The spec gives it
as the immutable triple (service name, secret name, secret reference). -/
structure ContainerSecret where
  serviceName : GoString
  secretName : GoString
  secretRef : GoString
  deriving DecidableEq, Repr

/-- Modelled from the spec: the constructor `secrets.NewContainerSecret`, which
stores its three arguments. -/
def NewContainerSecret (serviceName secretName secretRef : GoString) : ContainerSecret :=
  { serviceName := serviceName, secretName := secretName, secretRef := secretRef }

/-- Modelled from the spec: the accessor `Name()` of a container secret returns
the secret name given to the constructor. -/
def ContainerSecret.Name (cs : ContainerSecret) : GoString := cs.secretName

/-- A Go `map[string]string`, represented by its entries.  Maps built by the
program have pairwise distinct keys. -/
abbrev GoMap := List (GoString × GoString)

/-- The keys of a map. -/
def GoMap.keys (m : GoMap) : List GoString := m.map Prod.fst

/-- The read `m[k]` of a map: `none` when the key is absent. -/
def GoMap.get : GoMap → GoString → Option GoString
  | [], _ => none
  | (k', v') :: t, k => if k' = k then some v' else GoMap.get t k

/-- The assignment `m[k] = v` of a map: an existing entry for `k` is replaced,
otherwise a new entry is added. -/
def GoMap.set : GoMap → GoString → GoString → GoMap
  | [], k, v => [(k, v)]
  | (k', v') :: t, k, v => if k' = k then (k, v) :: t else (k', v') :: GoMap.set t k v

/-- One service of a compose file (`composeV3.ServiceConfig`), with the fields
the command reads.  `Labels` is a Go map; the list holds its entries in the
order in which `range` visits them, an order the Go run time chooses freely. -/
structure ServiceConfig where
  Name : GoString
  Labels : List (GoString × GoString)
  deriving DecidableEq, Repr

/-- The parsed compose file (`composeV3.Config`), with the fields the command
reads. -/
structure Config where
  Filename : GoString
  Services : List ServiceConfig
  deriving DecidableEq, Repr

namespace converter

/-- Modelled from the spec: the constant `converter.SecretLabelPrefix`, whose
declaring package is not part of the sources at hand.  The spec gives the
literal as `ecs-local.secret.`. -/
def SecretLabelPrefix : GoString := "ecs-local.secret.".toList

end converter

/-- The body of the inner loop of `readSecrets` (lines 71-77) for one label of
one service: the slice of secrets after the iteration, or `none` when the index
expression panics.  `secretLabelPrefix` is `converter.SecretLabelPrefix`. -/
def readSecretsLabel (secretLabelPrefix : GoString) (service : ServiceConfig)
    (containerSecrets : Slice ContainerSecret) (entry : GoString × GoString) :
    Option (Slice ContainerSecret) :=
  let label := entry.1
  let secretARN := entry.2
  if !HasPrefix label secretLabelPrefix then
    some containerSecrets
  else
    let namespaces := Split label '.'
    match goIndex namespaces ((namespaces.length : Int) - 1) with
    | none => none
    | some secretName =>
      some (goAppend containerSecrets (NewContainerSecret service.Name secretName secretARN))

/-- The function `readSecrets` (lines 67-81): the secrets declared by the labels of the
services of a compose file.  `none` is a run-time panic. -/
def readSecrets (secretLabelPrefix : GoString) (config : Config) :
    Option (Slice ContainerSecret) :=
  config.Services.foldlM
    (fun containerSecrets service =>
      service.Labels.foldlM (readSecretsLabel secretLabelPrefix service) containerSecrets)
    none

/-- The spec's wording of the secret name: the substring of a label key after
its final "." (the whole key when it has none). -/
def afterFinalDot (k : GoString) : GoString :=
  (k.reverse.takeWhile (fun c => c ≠ '.')).reverse

/-- The spec's wording of the scanner's result: one secret per pair of a
service and one of its labels whose key has the secret prefix, as a multiset. -/
def specSecrets (secretLabelPrefix : GoString) (config : Config) : Multiset ContainerSecret :=
  (config.Services : Multiset ServiceConfig).bind fun service =>
    (((service.Labels : Multiset (GoString × GoString)).filter
        fun kv => secretLabelPrefix <+: kv.1).map
      fun kv => NewContainerSecret service.Name (afterFinalDot kv.1) kv.2)

/-- The two secret backends, each with its own client. -/
inductive Backend
  | parameterStore
  | secretsManager
  deriving DecidableEq, Repr

namespace secretsmanager

/-- The constant `secretsmanager.ServiceName` of the AWS SDK. -/
def ServiceName : GoString := "secretsmanager".toList

end secretsmanager

namespace ssm

/-- The constant `ssm.ServiceName` of the AWS SDK. -/
def ServiceName : GoString := "ssm".toList

end ssm

/-- The command `exec.Command` builds, with the fields the launcher sets.  A
nil `Env` makes the child process use the environment of the current process. -/
structure Cmd where
  Path : GoString
  Args : List GoString
  Env : Slice GoString
  deriving DecidableEq, Repr

/-- The environment the child process of a command runs with, under the rule of
`os/exec`: the current process's environment when `Env` is nil, else `Env`. -/
def Cmd.childEnviron (cmd : Cmd) (ambient : List GoString) : List GoString :=
  match cmd.Env with
  | none => ambient
  | some env => env

/-- The command line context (`cli.Context`), with the one flag the command
reads: `LocalOutput` is the value of `c.String(flags.LocalOutputFlag)`, empty
when the flag is not given. -/
structure Context where
  LocalOutput : GoString
  deriving DecidableEq, Repr

/-- The observable actions of a run, in the order in which they happen. -/
inductive Event
  | create (c : Context)
  | dockerNewClient
  | networkSetup
  | unmarshalComposeFile (filename : GoString)
  | newSSMDecrypter
  | newSecretsManagerDecrypter
  | serviceName (secret : ContainerSecret)
  | decrypt (client : Backend) (secret : ContainerSecret)
  | combinedOutput (cmd : Cmd)
  | printf (text : GoString)
  deriving DecidableEq, Repr

/-- How a computation ends: it returns a value, `logrus.Fatalf` logs a message
and exits the process, or the run time panics. -/
inductive Outcome (α : Type)
  | returned (a : α)
  | fatal (msg : GoString)
  | panicked
  deriving DecidableEq, Repr

/-- A computation of the command: the actions it performed and how it ended. -/
structure Run (α : Type) where
  trace : List Event
  outcome : Outcome α

/-- Sequencing: the second computation runs only when the first returned. -/
def Run.bind {α β : Type} (x : Run α) (f : α → Run β) : Run β :=
  match x.outcome with
  | .returned a => { trace := x.trace ++ (f a).trace, outcome := (f a).outcome }
  | .fatal msg => { trace := x.trace, outcome := .fatal msg }
  | .panicked => { trace := x.trace, outcome := .panicked }

instance : Monad Run where
  pure a := { trace := [], outcome := .returned a }
  bind := Run.bind

/-- Perform one action. -/
def emit (e : Event) : Run Unit := { trace := [e], outcome := .returned () }

/-- The call `logrus.Fatalf` with the formatted message: the process exits. -/
def Fatalf {α : Type} (msg : GoString) : Run α := { trace := [], outcome := .fatal msg }

/-- The outside world of one run: the results of the calls the command makes
into other packages, the operating system and the cloud services.  A Go result
pair `(value, err)` is a pair whose second component is `none` for a nil error
and `some msg` for an error whose text is `msg`. -/
structure World where
  /-- The constant `converter.SecretLabelPrefix`. -/
  SecretLabelPrefix : GoString
  /-- The constant `localproject.LocalOutDefaultFileName`. -/
  LocalOutDefaultFileName : GoString
  /-- The call `Create(c)`: `some msg` when the step ends the process with a fatal error. -/
  Create : Context → Option GoString
  /-- The call `network.Setup(docker.NewClient())`, like `Create`. -/
  NetworkSetup : Option GoString
  /-- The call `converter.UnmarshalComposeFile(filename)`. -/
  UnmarshalComposeFile : GoString → Config × Option GoString
  /-- The error result of `clients.NewSSMDecrypter()`. -/
  NewSSMDecrypter : Option GoString
  /-- The error result of `clients.NewSecretsManagerDecrypter()`. -/
  NewSecretsManagerDecrypter : Option GoString
  /-- The call `containerSecret.ServiceName()`. -/
  ServiceName : ContainerSecret → GoString × Option GoString
  /-- The call `containerSecret.Decrypt(client)`, for the client of the given backend. -/
  Decrypt : Backend → ContainerSecret → GoString × Option GoString
  /-- The order in which `range` visits the entries of the map `envVars`, a
  permutation of the entries that the Go run time chooses. -/
  rangeOrder : GoMap → List (GoString × GoString)
  /-- The call `cmd.CombinedOutput()`. -/
  CombinedOutput : Cmd → GoString × Option GoString
  /-- The environment of the current process (`os.Environ()`). -/
  Environ : List GoString

/-- The file name `readComposeFile` reads (lines 56-59): the default name
unless the output flag is given. -/
def composeFilename (w : World) (c : Context) : GoString :=
  if c.LocalOutput ≠ [] then c.LocalOutput else w.LocalOutDefaultFileName

/-- The function `readComposeFile` (lines 55-65). -/
def readComposeFile (w : World) (c : Context) : Run Config := do
  let filename := composeFilename w c
  emit (.unmarshalComposeFile filename)
  let (config, err) := w.UnmarshalComposeFile filename
  match err with
  | some e =>
    Fatalf ("Failed to unmarshal Compose file ".toList ++ filename ++ " due to \n".toList ++ e)
  | none => pure config

/-- The body of the loop of `decryptSecrets` up to the error check (lines
92-109) for one secret: the plaintext stored under the secret's name. -/
def decryptSecret (w : World) (containerSecret : ContainerSecret) : Run GoString := do
  emit (.serviceName containerSecret)
  let (service, err) := w.ServiceName containerSecret
  match err with
  | some e => Fatalf ("Failed to retrieve the service of the secret due to \n".toList ++ e)
  | none =>
    let (decrypted, err) ←
      (if service = secretsmanager.ServiceName then do
        emit (.decrypt .secretsManager containerSecret)
        pure (w.Decrypt .secretsManager containerSecret)
      else if service = ssm.ServiceName then do
        emit (.decrypt .parameterStore containerSecret)
        pure (w.Decrypt .parameterStore containerSecret)
      else
        pure ([], some ("can\x27t decrypt secret from service ".toList ++ service)) :
        Run (GoString × Option GoString))
    match err with
    | some e => Fatalf ("Failed to decrypt secret due to \n".toList ++ e)
    | none => pure decrypted

/-- The loop of `decryptSecrets` (lines 91-111) over the secrets not yet
visited, with the map built so far. -/
def decryptLoop (w : World) : List ContainerSecret → GoMap → Run GoMap
  | [], envVars => pure envVars
  | containerSecret :: rest, envVars => do
    let decrypted ← decryptSecret w containerSecret
    decryptLoop w rest (envVars.set containerSecret.Name decrypted)

/-- The function `decryptSecrets` (lines 83-113).  The variable `err` is assigned by both
constructor calls and tested once, after the second. -/
def decryptSecrets (w : World) (containerSecrets : Slice ContainerSecret) : Run GoMap := do
  emit .newSSMDecrypter
  let mut err := w.NewSSMDecrypter
  emit .newSecretsManagerDecrypter
  err := w.NewSecretsManagerDecrypter
  match err with
  | some e => Fatalf ("Failed to create clients to decrypt secrets due to \n".toList ++ e)
  | none => decryptLoop w containerSecrets.elems []

/-- The string `fmt.Sprintf("%s=%s", env, val)`. -/
def envEntry (kv : GoString × GoString) : GoString := kv.1 ++ "=".toList ++ kv.2

/-- The loop of `upComposeFile` (lines 117-120) over the entries of `envVars`
in the order in which `range` visits them. -/
def composeEnvs (visited : List (GoString × GoString)) : Slice GoString :=
  visited.foldl (fun envs kv => goAppend envs (envEntry kv)) none

/-- The command `upComposeFile` builds (lines 117-123). -/
def composeCmd (config : Config) (visited : List (GoString × GoString)) : Cmd :=
  { Path := "docker-compose".toList
    Args := ["docker-compose".toList, "-f".toList, config.Filename, "up".toList, "-d".toList]
    Env := composeEnvs visited }

/-- The function `upComposeFile` (lines 116-130). -/
def upComposeFile (w : World) (config : Config) (envVars : GoMap) : Run Unit := do
  let cmd := composeCmd config (w.rangeOrder envVars)
  emit (.combinedOutput cmd)
  let (out, err) := w.CombinedOutput cmd
  match err with
  | some e =>
    Fatalf ("Failed to run docker-compose up due to \n".toList ++ e ++ ": ".toList ++ out)
  | none => emit (.printf ("Compose out: ".toList ++ out ++ "\n".toList))

/-- A step of another package that either returns or ends the process. -/
def foreignStep (e : Event) (r : Option GoString) : Run Unit := do
  emit e
  match r with
  | some msg => Fatalf msg
  | none => pure ()

/-- A pure computation that may panic. -/
def orPanic {α : Type} : Option α → Run α
  | some a => pure a
  | none => { trace := [], outcome := .panicked }

/-- The function `Up` (lines 42-53). -/
def Up (w : World) (c : Context) : Run Unit := do
  foreignStep (.create c) (w.Create c)
  emit .dockerNewClient
  foreignStep .networkSetup w.NetworkSetup
  let config ← readComposeFile w c
  let secrets ← orPanic (readSecrets w.SecretLabelPrefix config)
  let envVars ← decryptSecrets w secrets
  upComposeFile w config envVars


/-- Whether a secret resolves, in the spec's words: its service is found, is one
of the two known services, and the client of that service decrypts it.  The
value is the plaintext. -/
def resolved (w : World) (cs : ContainerSecret) : Option GoString :=
  match w.ServiceName cs with
  | (_, some _) => none
  | (service, none) =>
    if service = secretsmanager.ServiceName then
      match w.Decrypt .secretsManager cs with
      | (_, some _) => none
      | (plaintext, none) => some plaintext
    else if service = ssm.ServiceName then
      match w.Decrypt .parameterStore cs with
      | (_, some _) => none
      | (plaintext, none) => some plaintext
    else none

/-- The last secret of a list that has the given name. -/
def lastNamed (secrets : List ContainerSecret) (name : GoString) : Option ContainerSecret :=
  secrets.reverse.find? fun cs => decide (cs.Name = name)

/-- The actions of the secret resolver: constructing a secret client, asking
for the service of a secret, and decrypting with a client. -/
def Event.isSecretResolution : Event → Bool
  | .newSSMDecrypter => true
  | .newSecretsManagerDecrypter => true
  | .serviceName _ => true
  | .decrypt _ _ => true
  | _ => false

/-- The action that spawns the docker-compose subprocess. -/
def Event.isSpawn : Event → Bool
  | .combinedOutput _ => true
  | _ => false

/-- The secret the scanner derives from one matching label of a service. -/
def labelSecret (service : ServiceConfig) (kv : GoString × GoString) : ContainerSecret :=
  NewContainerSecret service.Name (afterFinalDot kv.1) kv.2

/-- The secrets the scanner derives from the labels of one service, in the order
in which the labels are visited. -/
def serviceSecrets (p : GoString) (service : ServiceConfig) : List ContainerSecret :=
  (service.Labels.filter fun kv => decide (p <+: kv.1)).map (labelSecret service)

/-- A secret of the service `web` that lives in the secrets manager. -/
def dbPassword : ContainerSecret :=
  NewContainerSecret "web".toList "DB_PASSWORD".toList
    "arn:aws:secretsmanager:us-west-2:1234:secret:dbpass".toList

/-- A secret of the service `worker` with the same name and another reference,
a path of the parameter store. -/
def dbPasswordParam : ContainerSecret :=
  NewContainerSecret "worker".toList "DB_PASSWORD".toList
    "arn:aws:ssm:us-west-2:1234:parameter/dbpass".toList

/-- A secret whose reference names a service that is neither backend. -/
def kmsSecret : ContainerSecret :=
  NewContainerSecret "web".toList "API_KEY".toList "arn:aws:kms:us-west-2:1234:key/1".toList

/-- A compose file with one service that declares `dbPassword` and one label
that is no secret. -/
def sampleConfig : Config :=
  { Filename := "docker-compose.local.yml".toList
    Services :=
      [{ Name := "web".toList
         Labels :=
           [("ecs-local.secret.DB_PASSWORD".toList, dbPassword.secretRef),
            ("maintainer".toList, "team".toList)] }] }

/-- A compose file whose service declares a secret of an unknown service. -/
def kmsConfig : Config :=
  { Filename := "docker-compose.local.yml".toList
    Services :=
      [{ Name := "web".toList
         Labels := [("ecs-local.secret.API_KEY".toList, kmsSecret.secretRef)] }] }

/-- The service a sample reference belongs to: the third field of the ARN. -/
def sampleServiceName (cs : ContainerSecret) : GoString × Option GoString :=
  match Split cs.secretRef ':' with
  | _ :: _ :: service :: _ => (service, none)
  | _ => ([], some "arn: invalid prefix".toList)

/-- A world in which every step succeeds: the compose file is `sampleConfig`,
both clients are constructed, and a client decrypts a reference to the text
`plain:` followed by the reference. -/
def sampleWorld : World :=
  { SecretLabelPrefix := converter.SecretLabelPrefix
    LocalOutDefaultFileName := "docker-compose.local.yml".toList
    Create := fun _ => none
    NetworkSetup := none
    UnmarshalComposeFile := fun _ => (sampleConfig, none)
    NewSSMDecrypter := none
    NewSecretsManagerDecrypter := none
    ServiceName := sampleServiceName
    Decrypt := fun _ cs => ("plain:".toList ++ cs.secretRef, none)
    rangeOrder := id
    CombinedOutput := fun _ => ("done".toList, none)
    Environ := ["PATH=/usr/bin".toList, "AWS_PROFILE=prod".toList] }

/-- The world `sampleWorld`, except that the parameter-store client cannot be
constructed. -/
def ssmFailsWorld : World :=
  { sampleWorld with NewSSMDecrypter := some "could not find region configuration".toList }

/-- The world `sampleWorld`, except that the compose file is missing. -/
def missingFileWorld : World :=
  { sampleWorld with
    UnmarshalComposeFile := fun _ =>
      ({ Filename := [], Services := [] },
        some "open docker-compose.local.yml: no such file or directory".toList) }

/-- The world `sampleWorld`, except that the compose file is `kmsConfig`. -/
def kmsWorld : World :=
  { sampleWorld with UnmarshalComposeFile := fun _ => (kmsConfig, none) }

/-- A command line without the output flag. -/
def sampleContext : Context := { LocalOutput := [] }

/-! ## Theorems -/

theorem HasPrefix_iff (s p : GoString) : HasPrefix s p = true ↔ p <+: s := by
  unfold HasPrefix
  simp only [Bool.and_eq_true, decide_eq_true_eq, beq_iff_eq]
  constructor
  · rintro ⟨_, h⟩
    have hs := List.take_append_drop p.length s
    rw [h] at hs
    exact ⟨s.drop p.length, hs⟩
  · rintro ⟨t, rfl⟩
    simp

theorem Split_of_not_mem (sep : Char) : ∀ s : GoString, sep ∉ s → Split s sep = [s]
  | [], _ => rfl
  | c :: cs, h => by
    have hc : c ≠ sep := fun e => h (by simp [e])
    have hcs : sep ∉ cs := fun e => h (by simp [e])
    simp [Split, hc, Split_of_not_mem sep cs hcs]

theorem Split_append_sep (sep : Char) (n : GoString) (hn : sep ∉ n) :
    ∀ pre : GoString, ∃ init, init ≠ [] ∧ Split (pre ++ sep :: n) sep = init ++ [n]
  | [] => ⟨[[]], by simp, by simp [Split, Split_of_not_mem sep n hn]⟩
  | c :: p => by
    obtain ⟨init, hne, hinit⟩ := Split_append_sep sep n hn p
    by_cases hc : c = sep
    · exact ⟨[] :: init, by simp, by simp [Split, hc, ← hinit]⟩
    · cases init with
      | nil => exact absurd rfl hne
      | cons h t =>
        refine ⟨(c :: h) :: t, by simp, ?_⟩
        have hinit2 : Split (p.append (sep :: n)) sep = h :: (t ++ [n]) := hinit
        simp only [List.cons_append, Split, hc, if_false, hinit2]

theorem last_decomp (sep : Char) :
    ∀ s : GoString, sep ∉ s ∨ ∃ pre n, s = pre ++ sep :: n ∧ sep ∉ n
  | [] => Or.inl (by simp)
  | c :: cs => by
    rcases last_decomp sep cs with h | ⟨pre, n, rfl, hn⟩
    · by_cases hc : c = sep
      · exact Or.inr ⟨[], cs, by simp [hc], h⟩
      · exact Or.inl (by simp [h, Ne.symm hc])
    · exact Or.inr ⟨c :: pre, n, rfl, hn⟩

theorem afterFinalDot_of_not_mem (n : GoString) (hn : '.' ∉ n) : afterFinalDot n = n := by
  unfold afterFinalDot
  rw [List.takeWhile_eq_self_iff.2, List.reverse_reverse]
  intro c hc
  have : c ≠ '.' := fun e => hn (by simpa [e] using hc)
  simpa using this

theorem afterFinalDot_append (pre n : GoString) (hn : '.' ∉ n) :
    afterFinalDot (pre ++ '.' :: n) = n := by
  unfold afterFinalDot
  have h1 : (pre ++ '.' :: n).reverse = n.reverse ++ '.' :: pre.reverse := by simp
  rw [h1, List.takeWhile_append_of_pos, List.takeWhile_cons_of_neg, List.append_nil,
    List.reverse_reverse]
  · simp
  · intro c hc
    have : c ≠ '.' := fun e => hn (by simpa [e] using hc)
    simpa using this

theorem goIndex_last {α : Type} (init : List α) (n : α) :
    goIndex (init ++ [n]) (((init ++ [n]).length : Int) - 1) = some n := by
  have h : ((init ++ [n]).length : Int) - 1 = (init.length : Int) := by simp
  rw [h]
  simp [goIndex]

theorem goIndex_Split (s : GoString) :
    goIndex (Split s '.') (((Split s '.').length : Int) - 1) = some (afterFinalDot s) := by
  rcases last_decomp '.' s with h | ⟨pre, n, rfl, hn⟩
  · rw [Split_of_not_mem _ _ h, afterFinalDot_of_not_mem _ h]
    exact goIndex_last [] s
  · obtain ⟨init, _, hinit⟩ := Split_append_sep '.' n hn pre
    rw [hinit, afterFinalDot_append _ _ hn]
    exact goIndex_last init n

theorem afterFinalDot_not_mem (s : GoString) : '.' ∉ afterFinalDot s := by
  rcases last_decomp '.' s with h | ⟨pre, n, rfl, hn⟩
  · rwa [afterFinalDot_of_not_mem _ h]
  · rwa [afterFinalDot_append _ _ hn]


theorem readSecretsLabel_eq (p : GoString) (service : ServiceConfig)
    (acc : Slice ContainerSecret) (kv : GoString × GoString) :
    readSecretsLabel p service acc kv =
      some (if p <+: kv.1 then goAppend acc (labelSecret service kv) else acc) := by
  unfold readSecretsLabel
  by_cases h : p <+: kv.1
  · have h2 : HasPrefix kv.1 p = true := (HasPrefix_iff _ _).2 h
    simp [h, h2, goIndex_Split, labelSecret]
  · have h2 : HasPrefix kv.1 p = false := by
      rw [← Bool.not_eq_true, HasPrefix_iff]; exact h
    simp [h, h2]

theorem labels_fold (p : GoString) (service : ServiceConfig) :
    ∀ (labels : List (GoString × GoString)) (acc : Slice ContainerSecret),
      ∃ r, labels.foldlM (readSecretsLabel p service) acc = some r ∧
        r.elems = acc.elems ++
          (labels.filter fun kv => decide (p <+: kv.1)).map (labelSecret service)
  | [], acc => ⟨acc, rfl, by simp⟩
  | kv :: rest, acc => by
    obtain ⟨r, hr, he⟩ := labels_fold p service rest
      (if p <+: kv.1 then goAppend acc (labelSecret service kv) else acc)
    refine ⟨r, ?_, ?_⟩
    · rw [List.foldlM_cons, readSecretsLabel_eq]
      exact hr
    · rw [he]
      by_cases h : p <+: kv.1
      · simp [h, goAppend, Slice.elems]
      · simp [h]

theorem services_fold (p : GoString) :
    ∀ (services : List ServiceConfig) (acc : Slice ContainerSecret),
      ∃ r, services.foldlM
          (fun containerSecrets service =>
            service.Labels.foldlM (readSecretsLabel p service) containerSecrets) acc = some r ∧
        r.elems = acc.elems ++ services.flatMap (serviceSecrets p)
  | [], acc => ⟨acc, rfl, by simp⟩
  | s :: rest, acc => by
    obtain ⟨r1, hr1, he1⟩ := labels_fold p s s.Labels acc
    obtain ⟨r, hr, he⟩ := services_fold p rest r1
    refine ⟨r, ?_, ?_⟩
    · rw [List.foldlM_cons, hr1]
      exact hr
    · rw [he, he1]
      simp [serviceSecrets]

theorem readSecrets_elems (p : GoString) (config : Config) :
    ∃ r, readSecrets p config = some r ∧
      r.elems = config.Services.flatMap (serviceSecrets p) := by
  obtain ⟨r, hr, he⟩ := services_fold p config.Services none
  exact ⟨r, hr, by simpa [Slice.elems] using he⟩

theorem specSecrets_eq (p : GoString) (config : Config) :
    specSecrets p config = ((config.Services.flatMap (serviceSecrets p) : List ContainerSecret) :
      Multiset ContainerSecret) := by
  unfold specSecrets serviceSecrets labelSecret
  rw [← Multiset.coe_bind]
  congr 1

/-- C1: for every secret label prefix and every compose file, `readSecrets`
returns, and the secrets it returns are, as a multiset, exactly one secret
`NewContainerSecret(service.Name, n, v)` per service and label `(k, v)` of that
service whose key has the prefix, where `n` is the part of `k` after its final
"."; a label without the prefix contributes nothing.  The labels of a service
are taken in any order of visit. -/
theorem readSecrets_multiset (secretLabelPrefix : GoString) (config : Config) :
    ∃ r, readSecrets secretLabelPrefix config = some r ∧
      (r.elems : Multiset ContainerSecret) = specSecrets secretLabelPrefix config := by
  obtain ⟨r, hr, he⟩ := readSecrets_elems secretLabelPrefix config
  exact ⟨r, hr, by rw [he, specSecrets_eq]⟩

theorem Run.bind_eq {α β : Type} (x : Run α) (f : α → Run β) : x >>= f = Run.bind x f := rfl
theorem Run.pure_eq {α : Type} (a : α) : (pure a : Run α) = { trace := [], outcome := .returned a } := rfl

theorem ssm_ne_secretsmanager : ssm.ServiceName ≠ secretsmanager.ServiceName := by decide

theorem decryptSecret_outcome (w : World) (cs : ContainerSecret) :
    (decryptSecret w cs).outcome =
      match resolved w cs with
      | some p => .returned p
      | none =>
        match w.ServiceName cs with
        | (_, some e) => .fatal ("Failed to retrieve the service of the secret due to \n".toList ++ e)
        | (service, none) =>
          if service = secretsmanager.ServiceName then
            .fatal ("Failed to decrypt secret due to \n".toList ++ ((w.Decrypt .secretsManager cs).2.getD []))
          else if service = ssm.ServiceName then
            .fatal ("Failed to decrypt secret due to \n".toList ++ ((w.Decrypt .parameterStore cs).2.getD []))
          else .fatal ("Failed to decrypt secret due to \n".toList ++
            ("can\x27t decrypt secret from service ".toList ++ service)) := by
  unfold decryptSecret resolved
  rcases h : w.ServiceName cs with ⟨s, _ | e⟩
  · by_cases h1 : s = secretsmanager.ServiceName
    · rcases h3 : w.Decrypt .secretsManager cs with ⟨p, _ | e⟩ <;>
        simp [Run.bind_eq, Run.pure_eq, Run.bind, emit, Fatalf, h1, h3]
    · by_cases h2 : s = ssm.ServiceName
      · rcases h3 : w.Decrypt .parameterStore cs with ⟨p, _ | e⟩ <;>
          simp [Run.bind_eq, Run.pure_eq, Run.bind, emit, Fatalf, h1, h2, h3, ssm_ne_secretsmanager]
      · simp [Run.bind_eq, Run.pure_eq, Run.bind, emit, Fatalf, h1, h2]
  · simp [Run.bind_eq, Run.pure_eq, Run.bind, emit, Fatalf]


theorem decryptSecret_trace (w : World) (cs : ContainerSecret) :
    (decryptSecret w cs).trace = Event.serviceName cs ::
      (match w.ServiceName cs with
        | (_, some _) => []
        | (service, none) =>
          if service = secretsmanager.ServiceName then [Event.decrypt .secretsManager cs]
          else if service = ssm.ServiceName then [Event.decrypt .parameterStore cs]
          else []) := by
  unfold decryptSecret
  rcases h : w.ServiceName cs with ⟨s, _ | e⟩
  · by_cases h1 : s = secretsmanager.ServiceName
    · rcases h3 : w.Decrypt .secretsManager cs with ⟨p, _ | e⟩ <;>
        simp [Run.bind_eq, Run.pure_eq, Run.bind, emit, Fatalf, h1, h3]
    · by_cases h2 : s = ssm.ServiceName
      · rcases h3 : w.Decrypt .parameterStore cs with ⟨p, _ | e⟩ <;>
          simp [Run.bind_eq, Run.pure_eq, Run.bind, emit, Fatalf, h1, h2, h3, ssm_ne_secretsmanager]
      · simp [Run.bind_eq, Run.pure_eq, Run.bind, emit, Fatalf, h1, h2]
  · simp [Run.bind_eq, Run.pure_eq, Run.bind, emit, Fatalf]

theorem decryptSecret_returned_iff (w : World) (cs : ContainerSecret) (p : GoString) :
    (decryptSecret w cs).outcome = .returned p ↔ resolved w cs = some p := by
  rw [decryptSecret_outcome]
  rcases h : resolved w cs with _ | q
  · simp only [reduceCtorEq, iff_false]
    rcases w.ServiceName cs with ⟨s, _ | e⟩
    · dsimp only
      split_ifs <;> simp
    · simp
  · simp

theorem decryptSecret_not_returned (w : World) (cs : ContainerSecret)
    (h : resolved w cs = none) (p : GoString) : (decryptSecret w cs).outcome ≠ .returned p := by
  rw [Ne, decryptSecret_returned_iff, h]
  simp

theorem decryptLoop_cons_returned (w : World) (cs : ContainerSecret) (rest : List ContainerSecret)
    (envVars : GoMap) (p : GoString) (h : (decryptSecret w cs).outcome = .returned p) :
    decryptLoop w (cs :: rest) envVars =
      { trace := (decryptSecret w cs).trace ++ (decryptLoop w rest (envVars.set cs.Name p)).trace
        outcome := (decryptLoop w rest (envVars.set cs.Name p)).outcome } := by
  simp [decryptLoop, Run.bind_eq, Run.pure_eq, Run.bind, h]

theorem decryptLoop_cons_stopped (w : World) (cs : ContainerSecret) (rest : List ContainerSecret)
    (envVars : GoMap) (h : ∀ p, (decryptSecret w cs).outcome ≠ .returned p) :
    (decryptLoop w (cs :: rest) envVars).trace = (decryptSecret w cs).trace ∧
      (∀ m, (decryptLoop w (cs :: rest) envVars).outcome ≠ .returned m) ∧
      ∀ msg, (decryptSecret w cs).outcome = .fatal msg →
        (decryptLoop w (cs :: rest) envVars).outcome = .fatal msg := by
  rcases ho : (decryptSecret w cs).outcome with p | msg | _
  · exact absurd ho (h p)
  · simp [decryptLoop, Run.bind_eq, Run.pure_eq, Run.bind, ho]
  · simp [decryptLoop, Run.bind_eq, Run.pure_eq, Run.bind, ho]

theorem decryptLoop_trace_mem (w : World) (e : Event) :
    ∀ (l : List ContainerSecret) (envVars : GoMap), e ∈ (decryptLoop w l envVars).trace →
      ∃ cs ∈ l, e ∈ (decryptSecret w cs).trace
  | [], _, h => by simp [decryptLoop, Run.pure_eq] at h
  | cs :: rest, envVars, h => by
    rcases ho : (decryptSecret w cs).outcome with p | msg | _
    · rw [decryptLoop_cons_returned w cs rest envVars p ho] at h
      rcases List.mem_append.1 h with h1 | h1
      · exact ⟨cs, by simp, h1⟩
      · obtain ⟨c, hc, hm⟩ := decryptLoop_trace_mem w e rest _ h1
        exact ⟨c, by simp [hc], hm⟩
    · rw [(decryptLoop_cons_stopped w cs rest envVars (by simp [ho])).1] at h
      exact ⟨cs, by simp, h⟩
    · rw [(decryptLoop_cons_stopped w cs rest envVars (by simp [ho])).1] at h
      exact ⟨cs, by simp, h⟩

theorem decryptLoop_not_returned (w : World) (cs : ContainerSecret) (h : resolved w cs = none) :
    ∀ (l : List ContainerSecret) (envVars : GoMap), cs ∈ l →
      ∀ m, (decryptLoop w l envVars).outcome ≠ .returned m
  | [], _, hm => by simp at hm
  | c :: rest, envVars, hm => by
    rcases ho : (decryptSecret w c).outcome with p | msg | _
    · rw [decryptLoop_cons_returned w c rest envVars p ho]
      have hne : cs ≠ c := by
        rintro rfl
        exact decryptSecret_not_returned w cs h p ho
      have hr : cs ∈ rest := by
        rcases List.mem_cons.1 hm with h1 | h1
        · exact absurd h1 hne
        · exact h1
      exact decryptLoop_not_returned w cs h rest _ hr
    · exact (decryptLoop_cons_stopped w c rest envVars (by simp [ho])).2.1
    · exact (decryptLoop_cons_stopped w c rest envVars (by simp [ho])).2.1

theorem decryptSecrets_eq (w : World) (secrets : Slice ContainerSecret) :
    decryptSecrets w secrets =
      match w.NewSecretsManagerDecrypter with
      | some e =>
        { trace := [.newSSMDecrypter, .newSecretsManagerDecrypter]
          outcome := .fatal ("Failed to create clients to decrypt secrets due to \n".toList ++ e) }
      | none =>
        { trace := .newSSMDecrypter :: .newSecretsManagerDecrypter ::
            (decryptLoop w secrets.elems []).trace
          outcome := (decryptLoop w secrets.elems []).outcome } := by
  unfold decryptSecrets
  rcases w.NewSecretsManagerDecrypter with _ | e <;> simp [Run.bind_eq, Run.pure_eq, Run.bind, emit, Fatalf]

theorem decrypt_mem_decryptSecret (w : World) (b : Backend) (cs c : ContainerSecret)
    (h : Event.decrypt b cs ∈ (decryptSecret w c).trace) :
    c = cs ∧ (w.ServiceName cs).2 = none ∧
      ((b = .secretsManager ∧ (w.ServiceName cs).1 = secretsmanager.ServiceName) ∨
        (b = .parameterStore ∧ (w.ServiceName cs).1 = ssm.ServiceName)) := by
  rw [decryptSecret_trace] at h
  rcases hs : w.ServiceName c with ⟨s, _ | e⟩
  · rw [hs] at h
    by_cases h1 : s = secretsmanager.ServiceName
    · simp [h1] at h
      obtain ⟨rfl, rfl⟩ := h
      simp [hs, h1]
    · by_cases h2 : s = ssm.ServiceName
      · simp [h2, ssm_ne_secretsmanager] at h
        obtain ⟨rfl, rfl⟩ := h
        simp [hs, h2]
      · simp [h1, h2] at h
  · rw [hs] at h
    simp at h

theorem decrypt_mem_decryptSecrets (w : World) (secrets : Slice ContainerSecret) (b : Backend)
    (cs : ContainerSecret) (h : Event.decrypt b cs ∈ (decryptSecrets w secrets).trace) :
    (w.ServiceName cs).2 = none ∧
      ((b = .secretsManager ∧ (w.ServiceName cs).1 = secretsmanager.ServiceName) ∨
        (b = .parameterStore ∧ (w.ServiceName cs).1 = ssm.ServiceName)) := by
  rw [decryptSecrets_eq] at h
  rcases hc : w.NewSecretsManagerDecrypter with _ | e
  · rw [hc] at h
    simp only [List.mem_cons, reduceCtorEq, false_or] at h
    obtain ⟨c, _, hm⟩ := decryptLoop_trace_mem w _ _ _ h
    exact (decrypt_mem_decryptSecret w b cs c hm).2
  · rw [hc] at h
    simp at h

theorem decryptSecrets_not_returned (w : World) (secrets : Slice ContainerSecret)
    (cs : ContainerSecret) (hmem : cs ∈ secrets.elems) (h : resolved w cs = none) (m : GoMap) :
    (decryptSecrets w secrets).outcome ≠ .returned m := by
  rw [decryptSecrets_eq]
  rcases w.NewSecretsManagerDecrypter with _ | e
  · exact decryptLoop_not_returned w cs h _ _ hmem m
  · simp

/-- The loop of the resolver over a list whose first part resolves: the actions
of that part happen one secret after the other, and the loop goes on with the
rest of the list. -/
theorem decryptLoop_append_resolved (w : World) (rest : List ContainerSecret) :
    ∀ (pre : List ContainerSecret) (envVars : GoMap), (∀ c ∈ pre, resolved w c ≠ none) →
      ∃ envVars', decryptLoop w (pre ++ rest) envVars =
        { trace := pre.flatMap (fun c => (decryptSecret w c).trace) ++
            (decryptLoop w rest envVars').trace
          outcome := (decryptLoop w rest envVars').outcome }
  | [], envVars, _ => ⟨envVars, by simp⟩
  | c :: pre, envVars, hall => by
    obtain ⟨p, hp⟩ := Option.ne_none_iff_exists'.1 (hall c (by simp))
    have hc : (decryptSecret w c).outcome = .returned p :=
      (decryptSecret_returned_iff w c p).2 hp
    obtain ⟨envVars', h⟩ := decryptLoop_append_resolved w rest pre (envVars.set c.Name p)
      (fun c' hc' => hall c' (by simp [hc']))
    refine ⟨envVars', ?_⟩
    rw [List.cons_append, decryptLoop_cons_returned w c (pre ++ rest) envVars p hc, h]
    simp

/-- A secret of the list that the loop reaches: when the checked constructor
succeeds and every earlier secret resolves, the actions of `decryptSecrets` are
the two constructor calls, the actions of the earlier secrets, the actions of
this secret, and what follows; when this secret ends the run, nothing follows
and the run ends the same way. -/
theorem decryptSecrets_reaches (w : World) (secrets : Slice ContainerSecret)
    (pre post : List ContainerSecret) (cs : ContainerSecret)
    (hlist : secrets.elems = pre ++ cs :: post)
    (hclient : w.NewSecretsManagerDecrypter = none)
    (hpre : ∀ c ∈ pre, resolved w c ≠ none) :
    (∃ tail, (decryptSecrets w secrets).trace =
      [.newSSMDecrypter, .newSecretsManagerDecrypter] ++
        pre.flatMap (fun c => (decryptSecret w c).trace) ++
        (decryptSecret w cs).trace ++ tail) ∧
    ((∀ p, (decryptSecret w cs).outcome ≠ .returned p) →
      (decryptSecrets w secrets).trace =
        [.newSSMDecrypter, .newSecretsManagerDecrypter] ++
          pre.flatMap (fun c => (decryptSecret w c).trace) ++
          (decryptSecret w cs).trace ∧
      ∀ msg, (decryptSecret w cs).outcome = .fatal msg →
        (decryptSecrets w secrets).outcome = .fatal msg) := by
  obtain ⟨envVars', h⟩ := decryptLoop_append_resolved w (cs :: post) pre [] hpre
  rw [decryptSecrets_eq, hclient, hlist, h]
  constructor
  · rcases ho : (decryptSecret w cs).outcome with p | msg | _
    · rw [decryptLoop_cons_returned w cs post envVars' p ho]
      exact ⟨(decryptLoop w post (envVars'.set cs.Name p)).trace, by simp⟩
    · rw [(decryptLoop_cons_stopped w cs post envVars' (by simp [ho])).1]
      exact ⟨[], by simp⟩
    · rw [(decryptLoop_cons_stopped w cs post envVars' (by simp [ho])).1]
      exact ⟨[], by simp⟩
  · intro hstop
    obtain ⟨ht, _, hf⟩ := decryptLoop_cons_stopped w cs post envVars' hstop
    refine ⟨by simp [ht], fun msg hmsg => ?_⟩
    exact hf msg hmsg

/-- C4: let `ServiceName()` of a secret succeed with the service `s`.  If `s` is
the secrets manager, processing the secret calls the secrets-manager client and
no run of `decryptSecrets` decrypts it with the parameter-store client; if `s`
is the parameter store, the roles are exchanged; for any other `s` no client is
called, the loop ends with the fatal error built from "can't decrypt secret
from service s" without an assignment to the map, and a list holding the secret
never yields a map.  Moreover, when the secret stands in the list given to
`decryptSecrets`, the checked client constructor succeeds and every earlier
secret of the list resolves, the run of `decryptSecrets` does process the
secret: its actions are the two constructor calls, the actions of the earlier
secrets and then the actions of this secret; so a secret of the secrets manager
is decrypted with the secrets-manager client in that run, a secret of the
parameter store with the parameter-store client, and for any other `s` the run
stops after the service lookup of this secret, and `decryptSecrets` itself ends
with the fatal error built from "can't decrypt secret from service s". -/
theorem decryptSecrets_dispatch (w : World) (secrets : Slice ContainerSecret)
    (cs : ContainerSecret) (s : GoString) (hs : w.ServiceName cs = (s, none)) :
    (s = secretsmanager.ServiceName →
      (decryptSecret w cs).trace = [.serviceName cs, .decrypt .secretsManager cs] ∧
      Event.decrypt .parameterStore cs ∉ (decryptSecrets w secrets).trace) ∧
    (s = ssm.ServiceName →
      (decryptSecret w cs).trace = [.serviceName cs, .decrypt .parameterStore cs] ∧
      Event.decrypt .secretsManager cs ∉ (decryptSecrets w secrets).trace) ∧
    (s ≠ secretsmanager.ServiceName → s ≠ ssm.ServiceName →
      (decryptSecret w cs).trace = [.serviceName cs] ∧
      (∀ b, Event.decrypt b cs ∉ (decryptSecrets w secrets).trace) ∧
      (decryptSecret w cs).outcome = .fatal ("Failed to decrypt secret due to \n".toList ++
        ("can\x27t decrypt secret from service ".toList ++ s)) ∧
      (∀ rest envVars, (decryptLoop w (cs :: rest) envVars).outcome =
        .fatal ("Failed to decrypt secret due to \n".toList ++
          ("can\x27t decrypt secret from service ".toList ++ s))) ∧
      (cs ∈ secrets.elems → ∀ m, (decryptSecrets w secrets).outcome ≠ .returned m)) ∧
    (∀ pre post, secrets.elems = pre ++ cs :: post →
      w.NewSecretsManagerDecrypter = none → (∀ c ∈ pre, resolved w c ≠ none) →
      (∃ tail, (decryptSecrets w secrets).trace =
        [.newSSMDecrypter, .newSecretsManagerDecrypter] ++
          pre.flatMap (fun c => (decryptSecret w c).trace) ++
          (decryptSecret w cs).trace ++ tail) ∧
      (s = secretsmanager.ServiceName →
        Event.decrypt .secretsManager cs ∈ (decryptSecrets w secrets).trace) ∧
      (s = ssm.ServiceName →
        Event.decrypt .parameterStore cs ∈ (decryptSecrets w secrets).trace) ∧
      (s ≠ secretsmanager.ServiceName → s ≠ ssm.ServiceName →
        (decryptSecrets w secrets).trace =
          [.newSSMDecrypter, .newSecretsManagerDecrypter] ++
            pre.flatMap (fun c => (decryptSecret w c).trace) ++ [.serviceName cs] ∧
        (decryptSecrets w secrets).outcome =
          .fatal ("Failed to decrypt secret due to \n".toList ++
            ("can\x27t decrypt secret from service ".toList ++ s)))) := by
  have htrace := decryptSecret_trace w cs
  rw [hs] at htrace
  refine ⟨fun h1 => ⟨?_, fun hm => ?_⟩, fun h2 => ⟨?_, fun hm => ?_⟩, fun h1 h2 => ?_,
    fun pre post hlist hclient hpre => ?_⟩
  · rw [htrace]; simp [h1]
  · have := (decrypt_mem_decryptSecrets w secrets _ cs hm).2
    rw [hs] at this
    simp [h1] at this
    exact ssm_ne_secretsmanager this.symm
  · rw [htrace]; simp [h2, ssm_ne_secretsmanager]
  · have := (decrypt_mem_decryptSecrets w secrets _ cs hm).2
    rw [hs] at this
    simp [h2, ssm_ne_secretsmanager] at this
  · have hres : resolved w cs = none := by simp [resolved, hs, h1, h2]
    have hout : (decryptSecret w cs).outcome = .fatal ("Failed to decrypt secret due to \n".toList ++
        ("can\x27t decrypt secret from service ".toList ++ s)) := by
      rw [decryptSecret_outcome, hres, hs]; simp [h1, h2]
    refine ⟨?_, fun b hm => ?_, hout, fun rest envVars => ?_, fun hmem m => ?_⟩
    · rw [htrace]; simp [h1, h2]
    · have := (decrypt_mem_decryptSecrets w secrets b cs hm).2
      rw [hs] at this
      simp [h1, h2] at this
    · exact (decryptLoop_cons_stopped w cs rest envVars
        (fun p => decryptSecret_not_returned w cs hres p)).2.2 _ hout
    · exact decryptSecrets_not_returned w secrets cs hmem hres m
  · obtain ⟨⟨tail, htail⟩, hstop⟩ := decryptSecrets_reaches w secrets pre post cs hlist hclient hpre
    refine ⟨⟨tail, htail⟩, fun h1 => ?_, fun h2 => ?_, fun h1 h2 => ?_⟩
    · rw [htail, htrace]; simp [h1]
    · rw [htail, htrace]; simp [h2, ssm_ne_secretsmanager]
    · have hres : resolved w cs = none := by simp [resolved, hs, h1, h2]
      have hout : (decryptSecret w cs).outcome =
          .fatal ("Failed to decrypt secret due to \n".toList ++
            ("can\x27t decrypt secret from service ".toList ++ s)) := by
        rw [decryptSecret_outcome, hres, hs]; simp [h1, h2]
      obtain ⟨ht, hf⟩ := hstop (fun p => decryptSecret_not_returned w cs hres p)
      refine ⟨?_, hf _ hout⟩
      rw [ht, htrace]; simp [h1, h2]

theorem GoMap.get_set (k v k' : GoString) :
    ∀ m : GoMap, (m.set k v).get k' = if k = k' then some v else m.get k'
  | [] => by simp [GoMap.set, GoMap.get]
  | (a, b) :: t => by
    by_cases h : a = k
    · subst h
      by_cases h2 : a = k' <;> simp [GoMap.set, GoMap.get, h2]
    · by_cases h2 : a = k'
      · subst h2
        simp [GoMap.set, GoMap.get, h, Ne.symm h]
      · simp [GoMap.set, GoMap.get, h, h2, GoMap.get_set k v k' t]

theorem GoMap.mem_keys_set (k v k' : GoString) :
    ∀ m : GoMap, k' ∈ (m.set k v).keys ↔ k' = k ∨ k' ∈ m.keys
  | [] => by simp [GoMap.set, GoMap.keys]
  | (a, b) :: t => by
    have ih := GoMap.mem_keys_set k v k' t
    simp only [GoMap.keys] at ih
    by_cases h : a = k
    · subst h
      simp [GoMap.set, GoMap.keys]
    · simp only [GoMap.set, h, if_false, GoMap.keys, List.map_cons, List.mem_cons, ih]
      tauto

theorem GoMap.nodup_set (k v : GoString) :
    ∀ m : GoMap, m.keys.Nodup → (m.set k v).keys.Nodup
  | [], _ => by simp [GoMap.set, GoMap.keys]
  | (a, b) :: t, hm => by
    have hm2 : a ∉ GoMap.keys t ∧ (GoMap.keys t).Nodup := by
      simpa [GoMap.keys] using hm
    by_cases h : a = k
    · subst h
      simpa [GoMap.set, GoMap.keys] using hm
    · have ih := GoMap.nodup_set k v t hm2.2
      have hmem := GoMap.mem_keys_set k v a t
      have : a ∉ GoMap.keys (GoMap.set t k v) := by
        rw [hmem]; tauto
      simp only [GoMap.set, h, if_false]
      simpa [GoMap.keys] using And.intro this ih

theorem GoMap.mem_keys_iff (k : GoString) : ∀ m : GoMap, k ∈ m.keys ↔ m.get k ≠ none
  | [] => by simp [GoMap.keys, GoMap.get]
  | (a, b) :: t => by
    have ih := GoMap.mem_keys_iff k t
    simp only [GoMap.keys] at ih
    by_cases h : a = k
    · simp [GoMap.keys, GoMap.get, h]
    · simp [GoMap.keys, GoMap.get, h, ih, Ne.symm h]

theorem GoMap.get_of_mem (k v : GoString) :
    ∀ m : GoMap, m.keys.Nodup → (k, v) ∈ m → m.get k = some v
  | [], _, h => by simp at h
  | (a, b) :: t, hm, h => by
    have hm2 : a ∉ GoMap.keys t ∧ (GoMap.keys t).Nodup := by
      simpa [GoMap.keys] using hm
    rcases List.mem_cons.1 h with h1 | h1
    · cases h1
      simp [GoMap.get]
    · have hk : k ∈ GoMap.keys t := List.mem_map.2 ⟨(k, v), h1, rfl⟩
      have : a ≠ k := fun e => hm2.1 (e ▸ hk)
      simp [GoMap.get, this, GoMap.get_of_mem k v t hm2.2 h1]

theorem lastNamed_cons (c : ContainerSecret) (rest : List ContainerSecret) (k : GoString) :
    lastNamed (c :: rest) k =
      match lastNamed rest k with
      | some cs => some cs
      | none => if c.Name = k then some c else none := by
  unfold lastNamed
  rw [List.reverse_cons, List.find?_append]
  generalize List.find? (fun cs => decide (cs.Name = k)) rest.reverse = o
  cases o with
  | none => by_cases h : c.Name = k <;> simp [h]
  | some cs => simp

theorem lastNamed_eq_none (k : GoString) (l : List ContainerSecret) :
    lastNamed l k = none ↔ ∀ cs ∈ l, cs.Name ≠ k := by
  unfold lastNamed
  simp [List.find?_eq_none]

theorem lastNamed_some (k : GoString) (l : List ContainerSecret) (cs : ContainerSecret)
    (h : lastNamed l k = some cs) : cs ∈ l ∧ cs.Name = k := by
  unfold lastNamed at h
  have h1 := List.mem_of_find?_eq_some h
  have h2 := List.find?_some h
  exact ⟨by simpa using h1, by simpa using h2⟩

theorem decryptLoop_all_resolved (w : World) :
    ∀ (l : List ContainerSecret) (envVars : GoMap), envVars.keys.Nodup →
      (∀ cs ∈ l, resolved w cs ≠ none) →
      ∃ m, (decryptLoop w l envVars).outcome = .returned m ∧ m.keys.Nodup ∧
        ∀ k, m.get k =
          match lastNamed l k with
          | some cs => resolved w cs
          | none => envVars.get k
  | [], envVars, hn, _ => ⟨envVars, rfl, hn, fun k => by simp [lastNamed]⟩
  | c :: rest, envVars, hn, hall => by
    obtain ⟨p, hp⟩ := Option.ne_none_iff_exists'.1 (hall c (by simp))
    have hc : (decryptSecret w c).outcome = .returned p :=
      (decryptSecret_returned_iff w c p).2 hp
    obtain ⟨m, hm, hnd, hget⟩ := decryptLoop_all_resolved w rest (envVars.set c.Name p)
      (GoMap.nodup_set _ _ _ hn) (fun cs hcs => hall cs (by simp [hcs]))
    refine ⟨m, ?_, hnd, fun k => ?_⟩
    · rw [decryptLoop_cons_returned w c rest envVars p hc]
      exact hm
    · rw [hget k, lastNamed_cons]
      rcases lastNamed rest k with _ | cs
      · by_cases h : c.Name = k <;> simp [GoMap.get_set, h, hp]
      · simp

/-- C6: when the secrets-manager client is constructed and every secret of the
list resolves, `decryptSecrets` returns a map with pairwise distinct keys whose
keys are exactly the names of the secrets of the list, and whose value for a
name is the plaintext of the last secret of the list with that name. -/
theorem decryptSecrets_last_write_wins (w : World) (secrets : Slice ContainerSecret)
    (hclient : w.NewSecretsManagerDecrypter = none)
    (hall : ∀ cs ∈ secrets.elems, resolved w cs ≠ none) :
    ∃ m, (decryptSecrets w secrets).outcome = .returned m ∧
      m.keys.Nodup ∧
      (∀ k, k ∈ m.keys ↔ ∃ cs ∈ secrets.elems, cs.Name = k) ∧
      ∀ k cs, lastNamed secrets.elems k = some cs →
        ∃ plaintext, resolved w cs = some plaintext ∧ m.get k = some plaintext := by
  obtain ⟨m, hm, hnd, hget⟩ := decryptLoop_all_resolved w secrets.elems [] (by simp [GoMap.keys]) hall
  refine ⟨m, ?_, hnd, fun k => ?_, fun k cs hl => ?_⟩
  · rw [decryptSecrets_eq, hclient]
    exact hm
  · rw [GoMap.mem_keys_iff, hget k]
    rcases hl : lastNamed secrets.elems k with _ | cs
    · have := (lastNamed_eq_none k _).1 hl
      simp only [GoMap.get, ne_eq, not_true_eq_false, false_iff, not_exists, not_and]
      exact this
    · obtain ⟨h1, h2⟩ := lastNamed_some k _ cs hl
      simp only [ne_eq, hall cs h1, not_false_eq_true, true_iff]
      exact ⟨cs, h1, h2⟩
  · obtain ⟨plaintext, hp⟩ :=
      Option.ne_none_iff_exists'.1 (hall cs (lastNamed_some k _ cs hl).1)
    exact ⟨plaintext, hp, by rw [hget k, hl]; exact hp⟩

theorem composeEnvs_fold (visited : List (GoString × GoString)) :
    ∀ acc : Slice GoString,
      (visited.foldl (fun envs kv => goAppend envs (envEntry kv)) acc).elems =
        acc.elems ++ visited.map envEntry := by
  induction visited with
  | nil => intro acc; simp
  | cons kv rest ih =>
    intro acc
    rw [List.foldl_cons, ih]
    simp [goAppend, Slice.elems]

theorem composeEnvs_elems (visited : List (GoString × GoString)) :
    (composeEnvs visited).elems = visited.map envEntry := by
  unfold composeEnvs
  rw [composeEnvs_fold]
  simp [Slice.elems]

theorem composeEnvs_eq_none_iff (visited : List (GoString × GoString)) :
    composeEnvs visited = none ↔ visited = [] := by
  cases visited with
  | nil => simp [composeEnvs]
  | cons kv rest =>
    have h := composeEnvs_elems (kv :: rest)
    constructor
    · intro hn
      rw [hn] at h
      simp [Slice.elems] at h
    · intro hn
      cases hn

/-- Whenever the map has an entry, the child process runs with exactly the
entries built from the map. -/
theorem composeCmd_childEnviron_of_ne_nil (config : Config)
    (visited : List (GoString × GoString)) (ambient : List GoString) (h : visited ≠ []) :
    (composeCmd config visited).childEnviron ambient = visited.map envEntry := by
  have hne : composeEnvs visited ≠ none := fun e => h ((composeEnvs_eq_none_iff visited).1 e)
  have he := composeEnvs_elems visited
  unfold Cmd.childEnviron composeCmd
  rcases hc : composeEnvs visited with _ | env
  · exact absurd hc hne
  · rw [hc] at he
    simpa [Slice.elems] using he

theorem map_envEntry_eq (m : GoMap) (hm : m.keys.Nodup) :
    m.map envEntry = m.keys.map fun k => k ++ "=".toList ++ (m.get k).getD [] := by
  unfold GoMap.keys
  rw [List.map_map]
  apply List.map_congr_left
  rintro ⟨k, v⟩ hkv
  simp [envEntry, GoMap.get_of_mem k v m hm hkv]

/-- C5: for a map `m` with distinct keys and any order in which `range` visits
its entries, the list of environment strings has as many entries as `m` has
keys, its entries are, as a multiset, the strings `k ++ "=" ++ m[k]` for the
keys `k` of `m`, and every other order of visit gives the same multiset. -/
theorem composeEnvs_one_entry_per_key (m : GoMap) (visited : List (GoString × GoString))
    (hm : m.keys.Nodup) (hv : visited.Perm m) :
    (composeEnvs visited).elems.length = m.keys.toFinset.card ∧
    ((composeEnvs visited).elems : Multiset GoString) =
      (m.keys : Multiset GoString).map (fun k => k ++ "=".toList ++ (m.get k).getD []) ∧
    ∀ visited' : List (GoString × GoString), visited'.Perm m →
      ((composeEnvs visited').elems : Multiset GoString) =
        ((composeEnvs visited).elems : Multiset GoString) := by
  refine ⟨?_, ?_, fun visited' hv' => ?_⟩
  · rw [composeEnvs_elems, List.length_map, List.toFinset_card_of_nodup hm, hv.length_eq]
    simp [GoMap.keys]
  · rw [composeEnvs_elems, Multiset.map_coe, ← map_envEntry_eq m hm]
    exact Multiset.coe_eq_coe.2 (hv.map envEntry)
  · rw [composeEnvs_elems, composeEnvs_elems]
    exact Multiset.coe_eq_coe.2 ((hv'.trans hv.symm).map envEntry)

/-- C5 at the map with the two keys `A` and `B`, visited in the other order. -/
theorem composeEnvs_one_entry_per_key_witness :
    (composeEnvs [("B".toList, "2".toList), ("A".toList, "1".toList)]).elems.length =
        (GoMap.keys [("A".toList, "1".toList), ("B".toList, "2".toList)]).toFinset.card ∧
    ((composeEnvs [("B".toList, "2".toList), ("A".toList, "1".toList)]).elems :
        Multiset GoString) =
      (GoMap.keys [("A".toList, "1".toList), ("B".toList, "2".toList)] : Multiset GoString).map
        (fun k => k ++ "=".toList ++
          (GoMap.get [("A".toList, "1".toList), ("B".toList, "2".toList)] k).getD []) ∧
    ∀ visited' : List (GoString × GoString),
      visited'.Perm [("A".toList, "1".toList), ("B".toList, "2".toList)] →
      ((composeEnvs visited').elems : Multiset GoString) =
        ((composeEnvs [("B".toList, "2".toList), ("A".toList, "1".toList)]).elems :
          Multiset GoString) :=
  composeEnvs_one_entry_per_key [("A".toList, "1".toList), ("B".toList, "2".toList)]
    [("B".toList, "2".toList), ("A".toList, "1".toList)] (by decide)
    (List.Perm.swap _ _ _)

/-- C2, at the empty map: the command has a nil environment, so the child runs
with the environment of the caller. -/
theorem upComposeFile_empty_map_inherits :
    (upComposeFile sampleWorld sampleConfig []).trace =
        [.combinedOutput (composeCmd sampleConfig []),
          .printf "Compose out: done\n".toList] ∧
      (composeCmd sampleConfig []).Env = none ∧
      (composeCmd sampleConfig []).childEnviron sampleWorld.Environ =
        ["PATH=/usr/bin".toList, "AWS_PROFILE=prod".toList] := by
  decide

/-- C3, when only the parameter-store client fails: the error is overwritten by
the second constructor call, the secret is examined and the map is returned. -/
theorem decryptSecrets_ssm_failure_ignored :
    ssmFailsWorld.NewSSMDecrypter = some "could not find region configuration".toList ∧
      (decryptSecrets ssmFailsWorld (some [dbPassword])).trace =
        [.newSSMDecrypter, .newSecretsManagerDecrypter, .serviceName dbPassword,
          .decrypt .secretsManager dbPassword] ∧
      (decryptSecrets ssmFailsWorld (some [dbPassword])).outcome =
        .returned [("DB_PASSWORD".toList, "plain:".toList ++ dbPassword.secretRef)] := by
  decide

/-- A failure of the secrets-manager constructor is fatal before any secret is
examined. -/
theorem decryptSecrets_secretsManager_failure (w : World) (secrets : Slice ContainerSecret)
    (e : GoString) (h : w.NewSecretsManagerDecrypter = some e) :
    decryptSecrets w secrets =
      { trace := [.newSSMDecrypter, .newSecretsManagerDecrypter]
        outcome := .fatal ("Failed to create clients to decrypt secrets due to \n".toList ++ e) } := by
  rw [decryptSecrets_eq, h]

/-- The actions of `Up` up to and including the read of the compose file. -/
theorem Up_unfold (w : World) (c : Context) :
    Up w c =
      match w.Create c with
      | some msg => { trace := [.create c], outcome := .fatal msg }
      | none =>
        match w.NetworkSetup with
        | some msg =>
          { trace := [.create c, .dockerNewClient, .networkSetup], outcome := .fatal msg }
        | none =>
          match w.UnmarshalComposeFile (composeFilename w c) with
          | (_, some e) =>
            { trace := [.create c, .dockerNewClient, .networkSetup,
                .unmarshalComposeFile (composeFilename w c)]
              outcome := .fatal ("Failed to unmarshal Compose file ".toList ++
                composeFilename w c ++ " due to \n".toList ++ e) }
          | (config, none) =>
            match readSecrets w.SecretLabelPrefix config with
            | none =>
              { trace := [.create c, .dockerNewClient, .networkSetup,
                  .unmarshalComposeFile (composeFilename w c)]
                outcome := .panicked }
            | some secrets =>
              { trace := [.create c, .dockerNewClient, .networkSetup,
                  .unmarshalComposeFile (composeFilename w c)] ++
                  ((decryptSecrets w secrets).bind (upComposeFile w config)).trace
                outcome := ((decryptSecrets w secrets).bind (upComposeFile w config)).outcome } := by
  unfold Up
  rcases w.Create c with _ | msg
  · rcases w.NetworkSetup with _ | msg
    · rcases hu : w.UnmarshalComposeFile (composeFilename w c) with ⟨config, _ | e⟩
      · rcases hr : readSecrets w.SecretLabelPrefix config with _ | secrets
        · simp [Run.bind_eq, Run.pure_eq, Run.bind, emit, Fatalf, foreignStep, readComposeFile, orPanic, hu, hr]
        · simp [Run.bind_eq, Run.pure_eq, Run.bind, emit, Fatalf, foreignStep, readComposeFile, orPanic, hu, hr]
      · simp [Run.bind_eq, Run.pure_eq, Run.bind, emit, Fatalf, foreignStep, readComposeFile, hu]
    · simp [Run.bind_eq, Run.pure_eq, Run.bind, emit, Fatalf, foreignStep]
  · simp [Run.bind_eq, Run.pure_eq, Run.bind, emit, Fatalf, foreignStep]

theorem Run.bind_of_not_returned {α β : Type} (x : Run α) (f : α → Run β)
    (h : ∀ a, x.outcome ≠ .returned a) :
    (x.bind f).trace = x.trace ∧ ∀ b, (x.bind f).outcome ≠ .returned b := by
  unfold Run.bind
  rcases ho : x.outcome with a | msg | _
  · exact absurd ho (h a)
  · simp
  · simp

theorem decryptSecret_trace_isSecretResolution (w : World) (cs : ContainerSecret) :
    ∀ ev ∈ (decryptSecret w cs).trace, ev.isSecretResolution = true := by
  intro ev hev
  rw [decryptSecret_trace] at hev
  rcases List.mem_cons.1 hev with h | h
  · subst h; rfl
  · rcases hs : w.ServiceName cs with ⟨s, _ | e⟩
    · rw [hs] at h
      dsimp only at h
      split_ifs at h <;> simp at h <;> subst h <;> rfl
    · rw [hs] at h
      simp at h

theorem decryptSecrets_trace_isSecretResolution (w : World) (secrets : Slice ContainerSecret) :
    ∀ ev ∈ (decryptSecrets w secrets).trace, ev.isSecretResolution = true := by
  intro ev hev
  rw [decryptSecrets_eq] at hev
  rcases hc : w.NewSecretsManagerDecrypter with _ | e <;> rw [hc] at hev
  · simp only [List.mem_cons] at hev
    rcases hev with h | h | h
    · subst h; rfl
    · subst h; rfl
    · obtain ⟨cs, _, hm⟩ := decryptLoop_trace_mem w ev _ _ h
      exact decryptSecret_trace_isSecretResolution w cs ev hm
  · simp only [List.mem_cons, List.mem_singleton, List.not_mem_nil, or_false] at hev
    rcases hev with h | h <;> subst h <;> rfl

theorem isSpawn_of_isSecretResolution (ev : Event) (h : ev.isSecretResolution = true) :
    ev.isSpawn = false := by
  cases ev <;> simp [Event.isSecretResolution, Event.isSpawn] at h ⊢

theorem Up_loader_failure (w : World) (c : Context) (e : GoString)
    (he : (w.UnmarshalComposeFile (composeFilename w c)).2 = some e) :
    (∀ ev ∈ (Up w c).trace, ev.isSecretResolution = false ∧ ev.isSpawn = false) ∧
      ∀ u, (Up w c).outcome ≠ .returned u := by
  rw [Up_unfold]
  rcases w.Create c with _ | msg
  · rcases w.NetworkSetup with _ | msg
    · rcases hu : w.UnmarshalComposeFile (composeFilename w c) with ⟨config, _ | e2⟩
      · rw [hu] at he
        simp at he
      · refine ⟨fun ev hev => ?_, fun u => by simp⟩
        simp only [List.mem_cons, List.mem_singleton, List.not_mem_nil, or_false] at hev
        rcases hev with h | h | h | h <;> subst h <;> exact ⟨rfl, rfl⟩
    · refine ⟨fun ev hev => ?_, fun u => by simp⟩
      simp only [List.mem_cons, List.mem_singleton, List.not_mem_nil, or_false] at hev
      rcases hev with h | h | h <;> subst h <;> exact ⟨rfl, rfl⟩
  · refine ⟨fun ev hev => ?_, fun u => by simp⟩
    simp only [List.mem_singleton] at hev
    subst hev
    exact ⟨rfl, rfl⟩

/-- C7: in every run of `Up`, when the read of the compose file fails, no action
of the secret resolver (no client construction, no service lookup, no decrypt)
and no spawn of the subprocess happens, and `Up` does not return; when the file
is read and one of its secrets does not resolve, the subprocess is never
spawned and `Up` does not return. -/
theorem Up_fail_fast (w : World) (c : Context) :
    (∀ e, (w.UnmarshalComposeFile (composeFilename w c)).2 = some e →
      (∀ ev ∈ (Up w c).trace, ev.isSecretResolution = false ∧ ev.isSpawn = false) ∧
      ∀ u, (Up w c).outcome ≠ .returned u) ∧
    (∀ config secrets cs,
      w.UnmarshalComposeFile (composeFilename w c) = (config, none) →
      readSecrets w.SecretLabelPrefix config = some secrets →
      cs ∈ secrets.elems → resolved w cs = none →
      (∀ ev ∈ (Up w c).trace, ev.isSpawn = false) ∧
      ∀ u, (Up w c).outcome ≠ .returned u) := by
  constructor
  · intro e he
    exact Up_loader_failure w c e he
  · intro config secrets cs hu hr hmem hres
    rw [Up_unfold]
    rcases w.Create c with _ | msg
    · rcases w.NetworkSetup with _ | msg
      · rw [hu]
        dsimp only
        rw [hr]
        dsimp only
        obtain ⟨ht, ho⟩ := Run.bind_of_not_returned (decryptSecrets w secrets)
          (upComposeFile w config) (decryptSecrets_not_returned w secrets cs hmem hres)
        refine ⟨fun ev hev => ?_, ho⟩
        rw [ht] at hev
        rcases List.mem_append.1 hev with h | h
        · simp only [List.mem_cons, List.mem_singleton, List.not_mem_nil, or_false] at h
          rcases h with h | h | h | h <;> subst h <;> rfl
        · exact isSpawn_of_isSecretResolution ev
            (decryptSecrets_trace_isSecretResolution w secrets ev h)
      · refine ⟨fun ev hev => ?_, fun u => by simp⟩
        simp only [List.mem_cons, List.mem_singleton, List.not_mem_nil, or_false] at hev
        rcases hev with h | h | h <;> subst h <;> rfl
    · refine ⟨fun ev hev => ?_, fun u => by simp⟩
      simp only [List.mem_singleton] at hev
      subst hev
      rfl

/-- C7 at a missing compose file and at a secret of an unknown service. -/
theorem Up_fail_fast_witness :
    ((∀ ev ∈ (Up missingFileWorld sampleContext).trace,
        ev.isSecretResolution = false ∧ ev.isSpawn = false) ∧
      ∀ u, (Up missingFileWorld sampleContext).outcome ≠ .returned u) ∧
    ((∀ ev ∈ (Up kmsWorld sampleContext).trace, ev.isSpawn = false) ∧
      ∀ u, (Up kmsWorld sampleContext).outcome ≠ .returned u) :=
  ⟨(Up_fail_fast missingFileWorld sampleContext).1 _ rfl,
    (Up_fail_fast kmsWorld sampleContext).2 kmsConfig (some [kmsSecret]) kmsSecret
      rfl (by decide) (by decide) (by decide)⟩

/-- C8 as stated fails: at a missing compose file, `Create` and the network
setup have run before the loader fails. -/
theorem Up_loader_failure_after_side_effects :
    (missingFileWorld.UnmarshalComposeFile (composeFilename missingFileWorld sampleContext)).2 ≠
        none ∧
      Event.create sampleContext ∈ (Up missingFileWorld sampleContext).trace ∧
      Event.networkSetup ∈ (Up missingFileWorld sampleContext).trace := by
  decide

/-- C8, amended: when `Up` reaches the compose loader and the loader fails, the
actions performed are exactly `Create`, the docker client, the network setup and
the failed read, in this order; the run ends with the fatal error of the loader,
and no action of the secret resolver and no spawn of the subprocess has
happened. -/
theorem Up_loader_failure_trace (w : World) (c : Context) (e : GoString)
    (hcreate : w.Create c = none) (hnet : w.NetworkSetup = none)
    (hload : (w.UnmarshalComposeFile (composeFilename w c)).2 = some e) :
    (Up w c).trace = [.create c, .dockerNewClient, .networkSetup,
        .unmarshalComposeFile (composeFilename w c)] ∧
      (Up w c).outcome = .fatal ("Failed to unmarshal Compose file ".toList ++
        composeFilename w c ++ " due to \n".toList ++ e) ∧
      ∀ ev ∈ (Up w c).trace, ev.isSecretResolution = false ∧ ev.isSpawn = false := by
  have h := Up_loader_failure w c e hload
  rw [Up_unfold, hcreate, hnet] at h ⊢
  rcases hu : w.UnmarshalComposeFile (composeFilename w c) with ⟨config, _ | e2⟩
  · rw [hu] at hload
    simp at hload
  · rw [hu] at hload h
    cases hload
    exact ⟨rfl, rfl, h.1⟩

/-- C8, amended, at a missing compose file. -/
theorem Up_loader_failure_trace_witness :
    (Up missingFileWorld sampleContext).trace =
        [.create sampleContext, .dockerNewClient, .networkSetup,
          .unmarshalComposeFile (composeFilename missingFileWorld sampleContext)] ∧
      (Up missingFileWorld sampleContext).outcome =
        .fatal ("Failed to unmarshal Compose file ".toList ++
          composeFilename missingFileWorld sampleContext ++ " due to \n".toList ++
          "open docker-compose.local.yml: no such file or directory".toList) ∧
      ∀ ev ∈ (Up missingFileWorld sampleContext).trace,
        ev.isSecretResolution = false ∧ ev.isSpawn = false :=
  Up_loader_failure_trace missingFileWorld sampleContext _ rfl rfl rfl

theorem afterFinalDot_secretLabel_append (r : GoString) (hr : '.' ∉ r) :
    afterFinalDot (converter.SecretLabelPrefix ++ r) = r := by
  have h : converter.SecretLabelPrefix ++ r = "ecs-local.secret".toList ++ '.' :: r := by
    simp [converter.SecretLabelPrefix]
  rw [h]
  exact afterFinalDot_append _ _ hr

theorem mem_readSecrets_of_label (p : GoString) (config : Config) (service : ServiceConfig)
    (kv : GoString × GoString) (hs : service ∈ config.Services) (hl : kv ∈ service.Labels)
    (hp : p <+: kv.1) :
    ∃ res, readSecrets p config = some res ∧ labelSecret service kv ∈ res.elems := by
  obtain ⟨res, hres, he⟩ := readSecrets_elems p config
  refine ⟨res, hres, ?_⟩
  rw [he, List.mem_flatMap]
  refine ⟨service, hs, ?_⟩
  unfold serviceSecrets
  exact List.mem_map.2 ⟨kv, List.mem_filter.2 ⟨hl, by simpa using hp⟩, rfl⟩

/-- C9: with the secret label prefix `ecs-local.secret.` of the spec, a label
whose key is the prefix followed by a remainder `r` without "." makes the loop
body of `readSecrets` append the secret named `r`, and `readSecrets` returns a
list holding that secret. -/
theorem readSecrets_degenerate_name (config : Config) (service : ServiceConfig)
    (r secretARN : GoString) (hs : service ∈ config.Services)
    (hl : (converter.SecretLabelPrefix ++ r, secretARN) ∈ service.Labels) (hr : '.' ∉ r) :
    (∀ containerSecrets,
      readSecretsLabel converter.SecretLabelPrefix service containerSecrets
          (converter.SecretLabelPrefix ++ r, secretARN) =
        some (goAppend containerSecrets (NewContainerSecret service.Name r secretARN))) ∧
    ∃ res, readSecrets converter.SecretLabelPrefix config = some res ∧
      NewContainerSecret service.Name r secretARN ∈ res.elems := by
  have hp : converter.SecretLabelPrefix <+: converter.SecretLabelPrefix ++ r :=
    List.prefix_append _ _
  constructor
  · intro containerSecrets
    rw [readSecretsLabel_eq, if_pos hp]
    simp only [labelSecret, afterFinalDot_secretLabel_append r hr]
  · obtain ⟨res, hres, hm⟩ := mem_readSecrets_of_label converter.SecretLabelPrefix config service
      (converter.SecretLabelPrefix ++ r, secretARN) hs hl hp
    refine ⟨res, hres, ?_⟩
    simpa only [labelSecret, afterFinalDot_secretLabel_append r hr] using hm

/-- C9 at the label `ecs-local.secret.DB_PASSWORD` of `sampleConfig`. -/
theorem readSecrets_degenerate_name_witness :
    (∀ containerSecrets,
      readSecretsLabel converter.SecretLabelPrefix
          { Name := "web".toList
            Labels := [("ecs-local.secret.DB_PASSWORD".toList, dbPassword.secretRef),
              ("maintainer".toList, "team".toList)] }
          containerSecrets
          (converter.SecretLabelPrefix ++ "DB_PASSWORD".toList, dbPassword.secretRef) =
        some (goAppend containerSecrets
          (NewContainerSecret "web".toList "DB_PASSWORD".toList dbPassword.secretRef))) ∧
    ∃ res, readSecrets converter.SecretLabelPrefix sampleConfig = some res ∧
      NewContainerSecret "web".toList "DB_PASSWORD".toList dbPassword.secretRef ∈ res.elems :=
  readSecrets_degenerate_name sampleConfig
    { Name := "web".toList
      Labels := [("ecs-local.secret.DB_PASSWORD".toList, dbPassword.secretRef),
        ("maintainer".toList, "team".toList)] }
    "DB_PASSWORD".toList dbPassword.secretRef (by decide) (by decide) (by decide)

/-- C10: for every label key, `strings.Split(label, ".")` is not empty and the
index `len(namespaces)-1` is in range, with a "."-free element there; so for
every prefix and compose file `readSecrets` returns without a panic, and no
secret name it derives holds a ".". -/
theorem readSecrets_total (secretLabelPrefix : GoString) (config : Config) :
    (∀ label : GoString, Split label '.' ≠ [] ∧
      ∃ secretName, goIndex (Split label '.') (((Split label '.').length : Int) - 1) =
        some secretName ∧ '.' ∉ secretName) ∧
    ∃ res, readSecrets secretLabelPrefix config = some res ∧
      ∀ cs ∈ res.elems, '.' ∉ cs.secretName := by
  constructor
  · intro label
    have h := goIndex_Split label
    refine ⟨fun hnil => ?_, afterFinalDot label, h, afterFinalDot_not_mem label⟩
    rw [hnil] at h
    simp [goIndex] at h
  · obtain ⟨res, hres, he⟩ := readSecrets_elems secretLabelPrefix config
    refine ⟨res, hres, fun cs hcs => ?_⟩
    rw [he, List.mem_flatMap] at hcs
    obtain ⟨service, _, hm⟩ := hcs
    unfold serviceSecrets at hm
    obtain ⟨kv, _, rfl⟩ := List.mem_map.1 hm
    exact afterFinalDot_not_mem kv.1

/-- C4 at the list of a secret of the secrets manager, a secret of the parameter
store and a secret of an unknown service: the run of `decryptSecrets` decrypts
the first with the secrets-manager client, the second with the parameter-store
client, and ends at the third with the fatal error of the unknown service. -/
theorem decryptSecrets_dispatch_witness :
    ((decryptSecret sampleWorld dbPassword).trace =
        [.serviceName dbPassword, .decrypt .secretsManager dbPassword] ∧
      Event.decrypt .parameterStore dbPassword ∉
        (decryptSecrets sampleWorld (some [dbPassword, dbPasswordParam, kmsSecret])).trace) ∧
    ((decryptSecret sampleWorld dbPasswordParam).trace =
        [.serviceName dbPasswordParam, .decrypt .parameterStore dbPasswordParam] ∧
      Event.decrypt .secretsManager dbPasswordParam ∉
        (decryptSecrets sampleWorld (some [dbPassword, dbPasswordParam, kmsSecret])).trace) ∧
    ((decryptSecret sampleWorld kmsSecret).trace = [.serviceName kmsSecret] ∧
      (∀ b, Event.decrypt b kmsSecret ∉
        (decryptSecrets sampleWorld (some [dbPassword, dbPasswordParam, kmsSecret])).trace) ∧
      (decryptSecret sampleWorld kmsSecret).outcome =
        .fatal ("Failed to decrypt secret due to \n".toList ++
          ("can\x27t decrypt secret from service ".toList ++ "kms".toList)) ∧
      (∀ rest envVars, (decryptLoop sampleWorld (kmsSecret :: rest) envVars).outcome =
        .fatal ("Failed to decrypt secret due to \n".toList ++
          ("can\x27t decrypt secret from service ".toList ++ "kms".toList))) ∧
      (kmsSecret ∈ Slice.elems (some [dbPassword, dbPasswordParam, kmsSecret]) →
        ∀ m, (decryptSecrets sampleWorld
          (some [dbPassword, dbPasswordParam, kmsSecret])).outcome ≠ .returned m)) ∧
    Event.decrypt .secretsManager dbPassword ∈
      (decryptSecrets sampleWorld (some [dbPassword, dbPasswordParam, kmsSecret])).trace ∧
    Event.decrypt .parameterStore dbPasswordParam ∈
      (decryptSecrets sampleWorld (some [dbPassword, dbPasswordParam, kmsSecret])).trace ∧
    (decryptSecrets sampleWorld (some [dbPassword, dbPasswordParam, kmsSecret])).trace =
      [.newSSMDecrypter, .newSecretsManagerDecrypter] ++
        [dbPassword, dbPasswordParam].flatMap (fun c => (decryptSecret sampleWorld c).trace) ++
        [.serviceName kmsSecret] ∧
    (decryptSecrets sampleWorld (some [dbPassword, dbPasswordParam, kmsSecret])).outcome =
      .fatal ("Failed to decrypt secret due to \n".toList ++
        ("can\x27t decrypt secret from service ".toList ++ "kms".toList)) :=
  ⟨(decryptSecrets_dispatch sampleWorld (some [dbPassword, dbPasswordParam, kmsSecret])
      dbPassword "secretsmanager".toList (by decide)).1 (by decide),
    (decryptSecrets_dispatch sampleWorld (some [dbPassword, dbPasswordParam, kmsSecret])
      dbPasswordParam "ssm".toList (by decide)).2.1 (by decide),
    (decryptSecrets_dispatch sampleWorld (some [dbPassword, dbPasswordParam, kmsSecret])
      kmsSecret "kms".toList (by decide)).2.2.1 (by decide) (by decide),
    ((decryptSecrets_dispatch sampleWorld (some [dbPassword, dbPasswordParam, kmsSecret])
      dbPassword "secretsmanager".toList (by decide)).2.2.2 [] [dbPasswordParam, kmsSecret]
      rfl (by decide) (by decide)).2.1 (by decide),
    ((decryptSecrets_dispatch sampleWorld (some [dbPassword, dbPasswordParam, kmsSecret])
      dbPasswordParam "ssm".toList (by decide)).2.2.2 [dbPassword] [kmsSecret]
      rfl (by decide) (by decide)).2.2.1 (by decide),
    ((decryptSecrets_dispatch sampleWorld (some [dbPassword, dbPasswordParam, kmsSecret])
      kmsSecret "kms".toList (by decide)).2.2.2 [dbPassword, dbPasswordParam] []
      rfl (by decide) (by decide)).2.2.2 (by decide) (by decide)⟩

/-- C6 at two secrets of two services with the same name and different
references: the map holds the one entry of the secret resolved last. -/
theorem decryptSecrets_last_write_wins_witness :
    ∃ m, (decryptSecrets sampleWorld (some [dbPassword, dbPasswordParam])).outcome =
        .returned m ∧
      m.keys.Nodup ∧
      (∀ k, k ∈ m.keys ↔
        ∃ cs ∈ Slice.elems (some [dbPassword, dbPasswordParam]), cs.Name = k) ∧
      ∀ k cs, lastNamed (Slice.elems (some [dbPassword, dbPasswordParam])) k = some cs →
        ∃ plaintext, resolved sampleWorld cs = some plaintext ∧ m.get k = some plaintext :=
  decryptSecrets_last_write_wins sampleWorld (some [dbPassword, dbPasswordParam])
    (by decide) (by decide)

end EcsLocal
